import Mathlib

/-!
Shallow embedding of the PDF OCR processor (`gui-app.py`): the text-layer
synthesizer (`_create_text_layer`, `_write_text_block`), the font setup
(`_setup_font`) and the document pipeline (`process_pdf`), together with
theorems settling the specification claims about them.

Python-level conventions of the embedding:
* machine state that the code reads from the outside world (file system,
  rasterizer, OCR engine, PDF libraries) is a `World` record of oracles;
* exceptions are `Except PyError`;
* Python `float` confidences are modelled as `ℚ` (no arithmetic beyond
  conversion and comparison is performed on them);
* a text string is a `List TChar`, distinguishing whitespace, ordinary
  encodable characters, and lone surrogates, which is exactly the structure
  `str.strip()` and `encode('utf-8', 'ignore')` observe.
-/

namespace PdfOcr

/-- Errors the embedded Python code can raise. -/
inductive PyError where
  | keyError (field : String)
  | indexError
  | valueError
  | fileNotFound
  | convertError
  | readError
  | ocrError
  | mergeError
  | openError
  | writeError
  deriving DecidableEq, Repr

/-- Decidable equality of caught-exception results, so that witnesses can
be checked by evaluation. -/
instance exceptDecidableEq {ε α : Type} [DecidableEq ε] [DecidableEq α] :
    DecidableEq (Except ε α) := fun x y =>
  match x, y with
  | .error e, .error e' =>
    if h : e = e' then .isTrue (by rw [h]) else .isFalse (by simp [h])
  | .error _, .ok _ => .isFalse (by simp)
  | .ok _, .error _ => .isFalse (by simp)
  | .ok a, .ok a' =>
    if h : a = a' then .isTrue (by rw [h]) else .isFalse (by simp [h])

/-- One character of an OCR text string: whitespace, an ordinary encodable
character, or a lone surrogate (which `encode('utf-8', 'ignore')` drops). -/
inductive TChar where
  | ws
  | ch (c : Char)
  | sur
  deriving DecidableEq, Repr

/-- Whether a character is whitespace (stripped by `str.strip()`). -/
def TChar.isWs : TChar → Bool
  | .ws => true
  | _ => false

/-- Whether a character is a lone surrogate (dropped by utf-8 `ignore`). -/
def TChar.isSur : TChar → Bool
  | .sur => true
  | _ => false

/-- Python `str.strip()`: drop leading and trailing whitespace. -/
def pyStrip (s : List TChar) : List TChar :=
  ((s.dropWhile TChar.isWs).reverse.dropWhile TChar.isWs).reverse

/-- Python `text.encode('utf-8', 'ignore').decode('utf-8')`: drop the
characters that cannot round-trip through utf-8. -/
def sanitize (s : List TChar) : List TChar :=
  s.filter (fun t => ! t.isSur)

/-- A per-word confidence entry as delivered by the OCR engine: a number,
a numeric string whose `float()` value is `q`, or a non-numeric string. -/
inductive ConfVal where
  | num (q : ℚ)
  | numStr (q : ℚ)
  | badStr
  deriving DecidableEq, Repr

/-- Python `float()` applied to a confidence entry (`ValueError` on a
non-numeric string). -/
def pyFloat : ConfVal → Except PyError ℚ
  | .num q => .ok q
  | .numStr q => .ok q
  | .badStr => .error .valueError

/-- An element of the `text_block` buffer built in `_create_text_layer`:
the dict `{text, x, y, width, height}` appended for one word. -/
structure WordItem where
  text : List TChar
  x : Int
  y : Int
  width : Int
  height : Int
  deriving DecidableEq, Repr

/-- One `drawString(x, y, text)` call issued to the canvas. -/
structure DrawCmd where
  x : Int
  y : Int
  text : List TChar
  deriving DecidableEq, Repr

/-- Model of `_write_text_block`: for each buffered item, strip the text and
skip the word if the result is empty; otherwise flip the vertical coordinate
(`y = H - top - height`), sanitize the text, and call `drawString`; a
per-word drawing failure (oracle `df`) is caught and the word is skipped.
The returned list is the sequence of successful `drawString` calls. -/
def write_text_block (df : DrawCmd → Bool) (H : Int) :
    List WordItem → List DrawCmd
  | [] => []
  | item :: rest =>
    let text := pyStrip item.text
    if text.isEmpty then write_text_block df H rest
    else
      let cmd : DrawCmd := ⟨item.x, H - item.y - item.height, sanitize text⟩
      if df cmd then write_text_block df H rest
      else cmd :: write_text_block df H rest

/-- The `drawString` call `_write_text_block` attempts for a word whose
stripped text is non-empty. -/
def itemCmd (H : Int) (w : WordItem) : DrawCmd :=
  ⟨w.x, H - w.y - w.height, sanitize (pyStrip w.text)⟩

/-- The raw `pytesseract` output dictionary for one page: each required
field is either present (a per-word array) or absent. -/
structure OcrData where
  text : Option (List (List TChar))
  conf : Option (List ConfVal)
  block_num : Option (List Int)
  left : Option (List Int)
  top : Option (List Int)
  width : Option (List Int)
  height : Option (List Int)
  deriving DecidableEq, Repr

/-- Python dictionary lookup `ocr_data[field]`: `KeyError` when absent. -/
def getField {α : Type} (o : Option α) (field : String) : Except PyError α :=
  match o with
  | some v => .ok v
  | none => .error (.keyError field)

/-- Python list indexing `xs[i]`: `IndexError` when out of range. -/
def getItem {α : Type} (xs : List α) (i : Nat) : Except PyError α :=
  match xs[i]? with
  | some v => .ok v
  | none => .error .indexError

/-- Loop state of `_create_text_layer`: `last_block_num`, the `text_block`
buffer, and the draw commands issued to the canvas so far. -/
structure LoopState where
  last_block_num : Int
  text_block : List WordItem
  cmds : List DrawCmd
  deriving DecidableEq, Repr

/-- The flush `if text_block: self._write_text_block(...)`. -/
def flushOf (df : DrawCmd → Bool) (H : Int) (buf : List WordItem) :
    List DrawCmd :=
  if buf.isEmpty then [] else write_text_block df H buf

/-- One iteration of the loop in `_create_text_layer` at index `i`:
read and coerce the confidence, skip the word if it is strictly below the
threshold, flush the buffer on a block-id boundary, and append the word's
dict to the buffer.  Field and index accesses follow the source order, so
the first failing access determines the raised error. -/
def layer_step (thr : ℚ) (df : DrawCmd → Bool) (H : Int) (od : OcrData)
    (st : LoopState) (i : Nat) : Except PyError LoopState := do
  let confs ← getField od.conf "conf"
  let cv ← getItem confs i
  let conf ← pyFloat cv
  if conf < thr then
    pure st
  else
    let bns ← getField od.block_num "block_num"
    let bn ← getItem bns i
    let st1 : LoopState :=
      if bn ≠ st.last_block_num then
        ⟨bn, [], st.cmds ++ flushOf df H st.text_block⟩
      else st
    let texts ← getField od.text "text"
    let t ← getItem texts i
    let lefts ← getField od.left "left"
    let xv ← getItem lefts i
    let tops ← getField od.top "top"
    let yv ← getItem tops i
    let widths ← getField od.width "width"
    let wv ← getItem widths i
    let heights ← getField od.height "height"
    let hv ← getItem heights i
    pure ⟨st1.last_block_num, st1.text_block ++ [⟨t, xv, yv, wv, hv⟩], st1.cmds⟩

/-- The `for i in range(...)` loop of `_create_text_layer`, over an explicit
list of indices; the first raised exception aborts the loop. -/
def runIdx (thr : ℚ) (df : DrawCmd → Bool) (H : Int) (od : OcrData) :
    LoopState → List Nat → Except PyError LoopState
  | st, [] => .ok st
  | st, i :: is =>
    match layer_step thr df H od st i with
    | .error e => .error e
    | .ok st' => runIdx thr df H od st' is

/-- The commands of `_create_text_layer`: run the loop over
`range(len(ocr_data['text']))` from the initial state
(`last_block_num = -1`, empty buffer), then flush the final block. -/
def layer_core (thr : ℚ) (df : DrawCmd → Bool) (od : OcrData) (H : Int) :
    Except PyError (List DrawCmd) := do
  let texts ← getField od.text "text"
  let st ← runIdx thr df H od ⟨-1, [], []⟩ (List.range texts.length)
  pure (st.cmds ++ flushOf df H st.text_block)

/-- The synthesized overlay for one page: the font set by `c.setFont`,
the fixed 8pt size, and the sequence of issued draw commands. -/
structure Layer where
  font : String
  fontSize : ℚ
  cmds : List DrawCmd
  deriving DecidableEq, Repr

/-- Model of `_create_text_layer`: set the font (the configured name is
either the successfully registered custom font or the built-in Helvetica,
so `setFont` itself cannot fail) and transparent fill, then produce the
page's draw commands.  `size` is `image.size = (width, height)`. -/
def create_text_layer (fontName : String) (thr : ℚ) (df : DrawCmd → Bool)
    (od : OcrData) (size : Int × Int) : Except PyError Layer :=
  match layer_core thr df od size.2 with
  | .error e => .error e
  | .ok cmds => .ok ⟨fontName, 8, cmds⟩

/-- One word record of the engine output: the values the seven per-word
arrays of `OcrData` hold at one index. -/
structure Entry where
  conf : ConfVal
  block_num : Int
  text : List TChar
  left : Int
  top : Int
  width : Int
  height : Int
  deriving DecidableEq, Repr

/-- A well-formed `OcrData`: all seven fields present, index-aligned, built
from a list of word records. -/
def odOf (es : List Entry) : OcrData :=
  ⟨some (es.map Entry.text), some (es.map Entry.conf),
   some (es.map Entry.block_num), some (es.map Entry.left),
   some (es.map Entry.top), some (es.map Entry.width),
   some (es.map Entry.height)⟩

/-- The buffer element built for a word record. -/
def entryItem (e : Entry) : WordItem :=
  ⟨e.text, e.left, e.top, e.width, e.height⟩

/-- `layer_step` specialised to a well-formed input: the loop body reads
exactly the word record at the current index. -/
def entryStep (thr : ℚ) (df : DrawCmd → Bool) (H : Int)
    (st : LoopState) (e : Entry) : Except PyError LoopState := do
  let conf ← pyFloat e.conf
  if conf < thr then
    pure st
  else
    let st1 : LoopState :=
      if e.block_num ≠ st.last_block_num then
        ⟨e.block_num, [], st.cmds ++ flushOf df H st.text_block⟩
      else st
    pure ⟨st1.last_block_num, st1.text_block ++ [entryItem e], st1.cmds⟩

/-- The loop of `_create_text_layer` over word records. -/
def entriesGo (thr : ℚ) (df : DrawCmd → Bool) (H : Int) :
    LoopState → List Entry → Except PyError LoopState
  | st, [] => .ok st
  | st, e :: es =>
    match entryStep thr df H st e with
    | .error err => .error err
    | .ok st' => entriesGo thr df H st' es

/-- Final-flush wrapper around `entriesGo`, from an arbitrary start state. -/
def runFrom (thr : ℚ) (df : DrawCmd → Bool) (H : Int) (st : LoopState)
    (es : List Entry) : Except PyError (List DrawCmd) :=
  match entriesGo thr df H st es with
  | .error e => .error e
  | .ok st' => .ok (st'.cmds ++ flushOf df H st'.text_block)

/-- The draw commands `_create_text_layer` produces for a well-formed list
of word records. -/
def entries_run (thr : ℚ) (df : DrawCmd → Bool) (H : Int)
    (es : List Entry) : Except PyError (List DrawCmd) :=
  runFrom thr df H ⟨-1, [], []⟩ es

/-- Whether a word record passes the confidence filter (its coerced
confidence is not strictly below the threshold). -/
def passes (thr : ℚ) (e : Entry) : Bool :=
  match pyFloat e.conf with
  | .ok c => decide (thr ≤ c)
  | .error _ => false

/-- Modelled from the spec: contiguous grouping of word records by equal
block id, carrying the current id and an accumulated buffer.  Used as the
specification side of the block-grouping refinement (claim comparison
only; the code side is `entriesGo`). -/
def chunkAux (cur : Int) (buf : List WordItem) :
    List Entry → List (List WordItem)
  | [] => if buf.isEmpty then [] else [buf]
  | e :: es =>
    if e.block_num = cur then chunkAux cur (buf ++ [entryItem e]) es
    else (if buf.isEmpty then [] else [buf]) ++
      chunkAux e.block_num [entryItem e] es

/-- Modelled from the spec: the contiguous runs of equal block id, in input
order — two non-adjacent runs with the same id stay separate. -/
def chunkRuns : List Entry → List (List WordItem)
  | [] => []
  | e :: es => chunkAux e.block_num [entryItem e] es

/-- The outside world `process_pdf` interacts with: the input file, the
directories that exist, the rasterizer, the OCR engine, the PDF libraries
and the output file system, each step with its possible failure. -/
structure World where
  inputExists : Bool
  dirs : List (List String)
  numPages : Nat
  convertFails : Bool
  readFails : Bool
  ocrFails : Nat → Bool
  ocr : Nat → OcrData
  imageSize : Nat → Int × Int
  drawFails : DrawCmd → Bool
  mergeFails : Nat → Bool
  openFails : Bool
  writeFails : Bool
  fontFileExists : Bool
  registerFails : Bool

/-- Model of `_setup_font`: register the custom TTF; on any failure
(missing file or a raising `registerFont`) the exception is caught, a
warning is logged and Helvetica is substituted. -/
def setup_font (w : World) : String :=
  if w.fontFileExists && !w.registerFails then "0xProto-Regular"
  else "Helvetica"

/-- The chain of directories `os.makedirs` creates for a path:
`[a, b] ↦ [[a], [a, b]]`. -/
def ancestors : List String → List (List String)
  | [] => []
  | a :: as => [a] :: (ancestors as).map (fun p => a :: p)

/-- `os.path.dirname` on a path given as components. -/
def dirname (p : List String) : List String := p.dropLast

/-- Model of `os.makedirs(d, exist_ok=True)`: raises `FileNotFoundError`
on the empty path, otherwise creates `d` and its missing ancestors and
succeeds whether or not they already exist. -/
def makedirs (dirs : List (List String)) (d : List String) :
    Except PyError (List (List String)) :=
  if d.isEmpty then .error .fileNotFound
  else .ok (dirs ++ (ancestors d).filter (fun p => !dirs.contains p))

/-- One page of the assembled output document: the input page it was
derived from, merged with its synthesized layer. -/
structure PageOut where
  origIndex : Nat
  font : String
  fontSize : ℚ
  cmds : List DrawCmd
  deriving DecidableEq, Repr

/-- The body of the per-page loop in `process_pdf` for page `i`: run OCR,
synthesize the text layer, fetch `reader.pages[i]`, merge the layer onto
it and hand the merged page to the writer. -/
def process_page (w : World) (fontName : String) (thr : ℚ) (i : Nat) :
    Except PyError PageOut :=
  if w.ocrFails i then .error .ocrError
  else
    match create_text_layer fontName thr w.drawFails (w.ocr i)
        (w.imageSize i) with
    | .error e => .error e
    | .ok layer =>
      if i < w.numPages then
        if w.mergeFails i then .error .mergeError
        else .ok ⟨i, layer.font, layer.fontSize, layer.cmds⟩
      else .error .indexError

/-- The per-page loop: pages `0 .. n-1` strictly in order, the first
raised exception aborting the loop. -/
def processPages (w : World) (fontName : String) (thr : ℚ) :
    Nat → Except PyError (List PageOut)
  | 0 => .ok []
  | n + 1 =>
    match processPages w fontName thr n with
    | .error e => .error e
    | .ok acc =>
      match process_page w fontName thr n with
      | .error e => .error e
      | .ok pg => .ok (acc ++ [pg])

/-- The failure message `process_pdf` builds in its exception handler. -/
def errMsg : PyError → String
  | .keyError _ => "Error processing PDF: missing field"
  | .indexError => "Error processing PDF: list index out of range"
  | .valueError => "Error processing PDF: could not convert string to float"
  | .fileNotFound => "Error processing PDF: file not found"
  | .convertError => "Error processing PDF: conversion failed"
  | .readError => "Error processing PDF: could not read input"
  | .ocrError => "Error processing PDF: tesseract failed"
  | .mergeError => "Error processing PDF: merge failed"
  | .openError => "Error processing PDF: could not open output"
  | .writeError => "Error processing PDF: write failed"

/-- Observable outcome of a `process_pdf` call: the returned
`(success, message)` pair, whether a file now exists at the output path,
whether the full document was written, its pages when complete, and the
directories existing afterwards. -/
structure RunOutcome where
  success : Bool
  message : String
  fileCreated : Bool
  fileComplete : Bool
  pages : List PageOut
  dirsAfter : List (List String)
  deriving DecidableEq, Repr

/-- Outcome of a run aborted before the output file was opened. -/
def mkFail (e : PyError) (dirs : List (List String)) : RunOutcome :=
  ⟨false, errMsg e, false, false, [], dirs⟩

/-- The steps of `process_pdf` after validation: rasterize, read the
input, process every page, then open the output file (which creates it)
and write the assembled document into it once. -/
def after_validate (w : World) (fontName : String) (thr : ℚ)
    (dirs' : List (List String)) : RunOutcome :=
  if w.convertFails then mkFail .convertError dirs'
  else if w.readFails then mkFail .readError dirs'
  else
    match processPages w fontName thr w.numPages with
    | .error e => mkFail e dirs'
    | .ok pages =>
      if w.openFails then mkFail .openError dirs'
      else if w.writeFails then
        ⟨false, errMsg .writeError, true, false, [], dirs'⟩
      else
        ⟨true, "Processing completed successfully", true, true, pages, dirs'⟩

/-- Model of `process_pdf`: validate that the input exists, create the
output path's parent directory, then run the pipeline; any exception is
caught and turned into a `(False, message)` result. -/
def process_pdf (w : World) (fontName : String) (thr : ℚ)
    (outputPath : List String) : RunOutcome :=
  if !w.inputExists then mkFail .fileNotFound w.dirs
  else
    match makedirs w.dirs (dirname outputPath) with
    | .error e => mkFail e w.dirs
    | .ok dirs' => after_validate w fontName thr dirs'

/-- The assembler entry point as configured by `__init__`: the registered
(or fallen-back) font and the default confidence threshold 60. -/
def processDocument (w : World) (outputPath : List String) : RunOutcome :=
  process_pdf w (setup_font w) 60 outputPath

/-! ### Refinement of the index loop to the entry loop -/

theorem except_bind_ok {α β : Type} (a : α) (f : α → Except PyError β) :
    (Except.ok a >>= f) = f a := rfl

theorem except_bind_err {α β : Type} (e : PyError) (f : α → Except PyError β) :
    ((Except.error e : Except PyError α) >>= f) = Except.error e := rfl

theorem getItem_of_some {α : Type} {xs : List α} {i : Nat} {v : α}
    (h : xs[i]? = some v) : getItem xs i = .ok v := by
  simp [getItem, h]

theorem layer_step_odOf (thr : ℚ) (df : DrawCmd → Bool) (H : Int)
    (L : List Entry) (st : LoopState) (i : Nat) (e : Entry)
    (h : L[i]? = some e) :
    layer_step thr df H (odOf L) st i = entryStep thr df H st e := by
  have hmap : ∀ {α : Type} (f : Entry → α), (L.map f)[i]? = some (f e) := by
    intro α f
    simp [List.getElem?_map, h]
  simp only [layer_step, entryStep, odOf, getField,
    getItem_of_some (hmap Entry.conf), getItem_of_some (hmap Entry.block_num),
    getItem_of_some (hmap Entry.text), getItem_of_some (hmap Entry.left),
    getItem_of_some (hmap Entry.top), getItem_of_some (hmap Entry.width),
    getItem_of_some (hmap Entry.height), except_bind_ok]
  cases hc : pyFloat e.conf with
  | error err => rfl
  | ok c =>
    by_cases hlt : c < thr
    · simp [except_bind_ok, hlt]
    · simp [except_bind_ok, hlt, entryItem]

theorem get_append_mid {α : Type} (pre : List α) (e : α) (tl : List α) :
    (pre ++ e :: tl)[pre.length]? = some e := by
  induction pre with
  | nil => simp
  | cons a pre ih => simpa using ih

theorem runIdx_odOf (thr : ℚ) (df : DrawCmd → Bool) (H : Int) :
    ∀ (tl pre : List Entry) (st : LoopState),
      runIdx thr df H (odOf (pre ++ tl)) st (List.range' pre.length tl.length) =
        entriesGo thr df H st tl := by
  intro tl
  induction tl with
  | nil => intro pre st; rfl
  | cons e tl ih =>
    intro pre st
    have hstep := layer_step_odOf thr df H (pre ++ e :: tl) st pre.length e
      (get_append_mid pre e tl)
    show runIdx thr df H (odOf (pre ++ e :: tl)) st
        (pre.length :: List.range' (pre.length + 1) tl.length) = _
    rw [runIdx, hstep]
    cases hs : entryStep thr df H st e with
    | error err => simp [entriesGo, hs]
    | ok st' =>
      have hlen : (pre ++ [e]).length = pre.length + 1 := by simp
      have happ : (pre ++ [e]) ++ tl = pre ++ e :: tl := by simp
      have h2 := ih (pre ++ [e]) st'
      rw [hlen, happ] at h2
      simp [entriesGo, hs, h2]

theorem layer_core_odOf (thr : ℚ) (df : DrawCmd → Bool) (H : Int)
    (es : List Entry) :
    layer_core thr df (odOf es) H = entries_run thr df H es := by
  have h0 : runIdx thr df H (odOf es) ⟨-1, [], []⟩ (List.range' 0 es.length) =
      entriesGo thr df H ⟨-1, [], []⟩ es := by
    simpa using runIdx_odOf thr df H es [] ⟨-1, [], []⟩
  show (do
    let texts ← getField (odOf es).text "text"
    let st ← runIdx thr df H (odOf es) ⟨-1, [], []⟩ (List.range texts.length)
    pure (st.cmds ++ flushOf df H st.text_block)) = _
  rw [show getField (odOf es).text "text" = .ok (es.map Entry.text) from rfl,
    except_bind_ok]
  rw [show (es.map Entry.text).length = es.length by simp]
  rw [List.range_eq_range', h0]
  cases hg : entriesGo thr df H ⟨-1, [], []⟩ es with
  | error err => simp [entries_run, runFrom, hg, except_bind_err]
  | ok st => simp [entries_run, runFrom, hg, except_bind_ok]

theorem create_odOf (f : String) (thr : ℚ) (df : DrawCmd → Bool)
    (es : List Entry) (size : Int × Int) :
    create_text_layer f thr df (odOf es) size =
      match entries_run thr df size.2 es with
      | .error e => .error e
      | .ok cmds => .ok ⟨f, 8, cmds⟩ := by
  rw [create_text_layer, layer_core_odOf]

/-! ### Behaviour of one loop iteration -/

theorem except_pure {α : Type} (a : α) :
    (pure a : Except PyError α) = Except.ok a := rfl

theorem entryStep_skip {e : Entry} {c thr : ℚ}
    (hc : pyFloat e.conf = .ok c) (hlt : c < thr)
    (df : DrawCmd → Bool) (H : Int) (st : LoopState) :
    entryStep thr df H st e = .ok st := by
  simp [entryStep, hc, except_bind_ok, hlt, except_pure]

theorem entryStep_keep {e : Entry} {c thr : ℚ}
    (hc : pyFloat e.conf = .ok c) (hge : ¬ c < thr)
    (df : DrawCmd → Bool) (H : Int) (st : LoopState)
    (hbn : e.block_num = st.last_block_num) :
    entryStep thr df H st e =
      .ok ⟨st.last_block_num, st.text_block ++ [entryItem e], st.cmds⟩ := by
  simp [entryStep, hc, except_bind_ok, hge, hbn, except_pure]

theorem entryStep_flush {e : Entry} {c thr : ℚ}
    (hc : pyFloat e.conf = .ok c) (hge : ¬ c < thr)
    (df : DrawCmd → Bool) (H : Int) (st : LoopState)
    (hbn : e.block_num ≠ st.last_block_num) :
    entryStep thr df H st e =
      .ok ⟨e.block_num, [entryItem e], st.cmds ++ flushOf df H st.text_block⟩ := by
  simp [entryStep, hc, except_bind_ok, hge, hbn, except_pure]

theorem entryStep_badconf {e : Entry} {err : PyError}
    (hc : pyFloat e.conf = .error err)
    (thr : ℚ) (df : DrawCmd → Bool) (H : Int) (st : LoopState) :
    entryStep thr df H st e = .error err := by
  simp [entryStep, hc, except_bind_err]

/-- Every successful loop iteration only extends the issued commands. -/
theorem entryStep_cmds_mono {thr : ℚ} {df : DrawCmd → Bool} {H : Int}
    {st st' : LoopState} {e : Entry}
    (h : entryStep thr df H st e = .ok st') :
    ∃ t, st'.cmds = st.cmds ++ t := by
  cases hc : pyFloat e.conf with
  | error err => rw [entryStep_badconf hc] at h; exact absurd h (by simp)
  | ok c =>
    by_cases hlt : c < thr
    · rw [entryStep_skip hc hlt] at h
      cases h
      exact ⟨[], by simp⟩
    · by_cases hbn : e.block_num = st.last_block_num
      · rw [entryStep_keep hc hlt df H st hbn] at h
        cases h
        exact ⟨[], by simp⟩
      · rw [entryStep_flush hc hlt df H st hbn] at h
        cases h
        exact ⟨flushOf df H st.text_block, rfl⟩

/-! ### The entry loop: splitting, erasure, monotonicity -/

theorem entriesGo_append (thr : ℚ) (df : DrawCmd → Bool) (H : Int) :
    ∀ (l1 l2 : List Entry) (st : LoopState),
      entriesGo thr df H st (l1 ++ l2) =
        match entriesGo thr df H st l1 with
        | .error e => .error e
        | .ok st' => entriesGo thr df H st' l2 := by
  intro l1
  induction l1 with
  | nil => intro l2 st; rfl
  | cons e l1 ih =>
    intro l2 st
    show (match entryStep thr df H st e with
      | Except.error err => (Except.error err : Except PyError LoopState)
      | Except.ok st' => entriesGo thr df H st' (l1 ++ l2)) = _
    cases hs : entryStep thr df H st e with
    | error err => simp [entriesGo, hs]
    | ok st' => simp [entriesGo, hs, ih l2 st']

/-- A word skipped by the confidence filter contributes nothing: the loop
over the input with the word removed reaches the same state. -/
theorem entriesGo_erase (thr : ℚ) (df : DrawCmd → Bool) (H : Int)
    {e : Entry} {c : ℚ} (hc : pyFloat e.conf = .ok c) (hlt : c < thr)
    (es1 es2 : List Entry) (st : LoopState) :
    entriesGo thr df H st (es1 ++ e :: es2) =
      entriesGo thr df H st (es1 ++ es2) := by
  rw [entriesGo_append, entriesGo_append]
  cases h1 : entriesGo thr df H st es1 with
  | error err => rfl
  | ok st' =>
    show (match entryStep thr df H st' e with
      | Except.error err => (Except.error err : Except PyError LoopState)
      | Except.ok st'' => entriesGo thr df H st'' es2) = _
    rw [entryStep_skip hc hlt]

theorem runFrom_erase (thr : ℚ) (df : DrawCmd → Bool) (H : Int)
    {e : Entry} {c : ℚ} (hc : pyFloat e.conf = .ok c) (hlt : c < thr)
    (es1 es2 : List Entry) (st : LoopState) :
    runFrom thr df H st (es1 ++ e :: es2) = runFrom thr df H st (es1 ++ es2) := by
  rw [runFrom, runFrom, entriesGo_erase thr df H hc hlt]

/-- Erasure at the level of `_create_text_layer`: deleting a word whose
coerced confidence is strictly below the threshold from all seven arrays
leaves the synthesized layer unchanged. -/
theorem create_erase (f : String) (thr : ℚ) (df : DrawCmd → Bool)
    {e : Entry} {c : ℚ} (hc : pyFloat e.conf = .ok c) (hlt : c < thr)
    (es1 es2 : List Entry) (size : Int × Int) :
    create_text_layer f thr df (odOf (es1 ++ e :: es2)) size =
      create_text_layer f thr df (odOf (es1 ++ es2)) size := by
  rw [create_odOf, create_odOf, entries_run, entries_run,
    runFrom_erase thr df size.2 hc hlt]

/-- Once issued, a command stays in the canvas until the end of the run. -/
theorem runFrom_mem_cmds (thr : ℚ) (df : DrawCmd → Bool) (H : Int) :
    ∀ (es : List Entry) (st : LoopState) (cmds : List DrawCmd)
      (c : DrawCmd), runFrom thr df H st es = .ok cmds →
      c ∈ st.cmds → c ∈ cmds := by
  intro es
  induction es with
  | nil =>
    intro st cmds c h hm
    rw [runFrom] at h
    simp only [entriesGo] at h
    cases h
    exact List.mem_append.mpr (Or.inl hm)
  | cons e es ih =>
    intro st cmds c h hm
    rw [runFrom] at h
    simp only [entriesGo] at h
    cases hs : entryStep thr df H st e with
    | error err => rw [hs] at h; exact absurd h (by simp)
    | ok st' =>
      rw [hs] at h
      obtain ⟨t, ht⟩ := entryStep_cmds_mono hs
      exact ih st' cmds c (by rw [runFrom, h]) (ht ▸ List.mem_append.mpr (Or.inl hm))

/-! ### `_write_text_block` lemmas -/

theorem wtb_append (df : DrawCmd → Bool) (H : Int) :
    ∀ (l1 l2 : List WordItem),
      write_text_block df H (l1 ++ l2) =
        write_text_block df H l1 ++ write_text_block df H l2 := by
  intro l1
  induction l1 with
  | nil => intro l2; rfl
  | cons item l1 ih =>
    intro l2
    show write_text_block df H (item :: (l1 ++ l2)) = _
    rw [write_text_block, write_text_block]
    by_cases he : (pyStrip item.text).isEmpty
    · simp [he, ih]
    · by_cases hd : df ⟨item.x, H - item.y - item.height, sanitize (pyStrip item.text)⟩ <;>
        simp [he, hd, ih]

/-- The value of `_write_text_block` on a single word. -/
theorem wtb_single (df : DrawCmd → Bool) (H : Int) (w : WordItem) :
    write_text_block df H [w] =
      if (pyStrip w.text).isEmpty then []
      else if df (itemCmd H w) then [] else [itemCmd H w] := by
  rw [write_text_block]
  by_cases he : (pyStrip w.text).isEmpty
  · simp [he, write_text_block]
  · by_cases hd : df (itemCmd H w) <;> simp [he, hd, itemCmd, write_text_block]

/-- Every word of a block whose stripped text is non-empty and whose
`drawString` does not fail contributes its command to the block's output. -/
theorem wtb_mem (df : DrawCmd → Bool) (H : Int) {w : WordItem}
    {block : List WordItem} (hm : w ∈ block)
    (he : (pyStrip w.text).isEmpty = false) (hd : df (itemCmd H w) = false) :
    itemCmd H w ∈ write_text_block df H block := by
  obtain ⟨l1, l2, rfl⟩ := List.append_of_mem hm
  rw [show l1 ++ w :: l2 = (l1 ++ [w]) ++ l2 by simp, wtb_append, wtb_append,
    wtb_single]
  simp [he, hd]

/-- Every command of a block's output comes from a word of the block, at
the word's horizontal position and vertically flipped position. -/
theorem wtb_shape (df : DrawCmd → Bool) (H : Int) :
    ∀ (block : List WordItem) (cmd : DrawCmd),
      cmd ∈ write_text_block df H block →
      ∃ w ∈ block, cmd = itemCmd H w := by
  intro block
  induction block with
  | nil => intro cmd h; exact absurd h (by simp [write_text_block])
  | cons item block ih =>
    intro cmd h
    rw [write_text_block] at h
    by_cases he : (pyStrip item.text).isEmpty
    · rw [if_pos he] at h
      obtain ⟨w, hw, hc⟩ := ih cmd h
      exact ⟨w, List.mem_cons_of_mem _ hw, hc⟩
    · rw [if_neg he] at h
      by_cases hd : df ⟨item.x, H - item.y - item.height, sanitize (pyStrip item.text)⟩
      · rw [if_pos hd] at h
        obtain ⟨w, hw, hc⟩ := ih cmd h
        exact ⟨w, List.mem_cons_of_mem _ hw, hc⟩
      · rw [if_neg hd] at h
        rcases List.mem_cons.mp h with hc | hc
        · exact ⟨item, List.mem_cons_self _ _, hc⟩
        · obtain ⟨w, hw, hcc⟩ := ih cmd hc
          exact ⟨w, List.mem_cons_of_mem _ hw, hcc⟩

/-- A word sitting in the buffer when the remaining loop completes
successfully ends up drawn (its stripped text being non-empty and its
`drawString` not failing): the buffer is either flushed at a later block
boundary or by the final flush, and commands, once issued, persist. -/
theorem runFrom_mem_buffer (thr : ℚ) (df : DrawCmd → Bool) (H : Int) :
    ∀ (es : List Entry) (st : LoopState) (cmds : List DrawCmd)
      (w : WordItem), runFrom thr df H st es = .ok cmds →
      w ∈ st.text_block → (pyStrip w.text).isEmpty = false →
      df (itemCmd H w) = false → itemCmd H w ∈ cmds := by
  intro es
  induction es with
  | nil =>
    intro st cmds w h hm he hd
    rw [runFrom] at h
    simp only [entriesGo] at h
    cases h
    refine List.mem_append.mpr (Or.inr ?_)
    have hne : st.text_block.isEmpty = false := by
      cases htb : st.text_block with
      | nil => rw [htb] at hm; exact absurd hm (by simp)
      | cons a l => rfl
    rw [flushOf, hne]
    simp only [Bool.false_eq_true, if_false]
    exact wtb_mem df H hm he hd
  | cons e es ih =>
    intro st cmds w h hm he hd
    rw [runFrom] at h
    simp only [entriesGo] at h
    cases hs : entryStep thr df H st e with
    | error err => rw [hs] at h; exact absurd h (by simp)
    | ok st' =>
      rw [hs] at h
      have h' : runFrom thr df H st' es = .ok cmds := by rw [runFrom, h]
      cases hc : pyFloat e.conf with
      | error err =>
        rw [entryStep_badconf hc] at hs; exact absurd hs (by simp)
      | ok c =>
        by_cases hlt : c < thr
        · rw [entryStep_skip hc hlt] at hs
          cases hs
          exact ih _ cmds w h' hm he hd
        · by_cases hbn : e.block_num = st.last_block_num
          · rw [entryStep_keep hc hlt df H st hbn] at hs
            cases hs
            exact ih _ cmds w h' (List.mem_append.mpr (Or.inl hm)) he hd
          · rw [entryStep_flush hc hlt df H st hbn] at hs
            cases hs
            refine runFrom_mem_cmds thr df H es _ cmds _ h' ?_
            refine List.mem_append.mpr (Or.inr ?_)
            have hne : st.text_block.isEmpty = false := by
              cases htb : st.text_block with
              | nil => rw [htb] at hm; exact absurd hm (by simp)
              | cons a l => rfl
            rw [flushOf, hne]
            simp only [Bool.false_eq_true, if_false]
            exact wtb_mem df H hm he hd

/-! ### Block grouping refinement -/

theorem passes_true {e : Entry} {c thr : ℚ}
    (hc : pyFloat e.conf = .ok c) (hge : ¬ c < thr) :
    passes thr e = true := by
  simp [passes, hc, not_lt.mp hge]

theorem passes_false {e : Entry} {c thr : ℚ}
    (hc : pyFloat e.conf = .ok c) (hlt : c < thr) :
    passes thr e = false := by
  simp [passes, hc, not_le.mpr hlt]

/-- The loop's flush discipline computes exactly the contiguous grouping:
from any state, the final commands are the already-issued ones followed by
the flushes of `chunkAux` applied to the confidence-passing suffix. -/
theorem runFrom_chunk (thr : ℚ) (df : DrawCmd → Bool) (H : Int) :
    ∀ (es : List Entry) (st : LoopState),
      (∀ e ∈ es, ∃ c, pyFloat e.conf = .ok c) →
      runFrom thr df H st es =
        .ok (st.cmds ++
          ((chunkAux st.last_block_num st.text_block
              (es.filter (passes thr))).map (write_text_block df H)).flatten) := by
  intro es
  induction es with
  | nil =>
    intro st _
    rw [runFrom]
    simp only [entriesGo, List.filter_nil, chunkAux]
    by_cases hb : st.text_block.isEmpty
    · simp [flushOf, hb]
    · simp [flushOf, hb]
  | cons e es ih =>
    intro st hall
    obtain ⟨c, hc⟩ := hall e (List.mem_cons_self e es)
    have hall' : ∀ x ∈ es, ∃ q, pyFloat x.conf = .ok q := fun x hx =>
      hall x (List.mem_cons_of_mem e hx)
    rw [runFrom]
    simp only [entriesGo]
    by_cases hlt : c < thr
    · rw [entryStep_skip hc hlt]
      have := ih st hall'
      rw [runFrom] at this
      rw [this, List.filter_cons_of_neg (by simp [passes_false hc hlt])]
    · rw [List.filter_cons_of_pos (by simp [passes_true hc hlt])]
      by_cases hbn : e.block_num = st.last_block_num
      · rw [entryStep_keep hc hlt df H st hbn]
        have := ih ⟨st.last_block_num, st.text_block ++ [entryItem e], st.cmds⟩ hall'
        rw [runFrom] at this
        rw [this, chunkAux]
        simp [hbn]
      · rw [entryStep_flush hc hlt df H st hbn]
        have := ih ⟨e.block_num, [entryItem e],
          st.cmds ++ flushOf df H st.text_block⟩ hall'
        rw [runFrom] at this
        rw [this, chunkAux]
        simp only [if_neg hbn]
        by_cases hb : st.text_block.isEmpty
        · simp [flushOf, hb]
        · simp [flushOf, hb, List.append_assoc]

/-- From the initial sentinel state the contiguous grouping starts at the
first passing word's block id. -/
theorem chunkAux_nil_buf (cur : Int) :
    ∀ ps : List Entry, chunkAux cur [] ps = chunkRuns ps := by
  intro ps
  cases ps with
  | nil => rfl
  | cons e ps =>
    rw [chunkAux, chunkRuns]
    by_cases h : e.block_num = cur
    · rw [if_pos h, ← h]
      simp
    · rw [if_neg h]
      simp

/-- `_create_text_layer` on a well-formed input with parseable confidences:
the layer is exactly the in-order concatenation of the per-run flushes of
the contiguous block-id runs of the confidence-passing words. -/
theorem create_text_layer_chunks (f : String) (thr : ℚ) (df : DrawCmd → Bool)
    (es : List Entry) (size : Int × Int)
    (hall : ∀ e ∈ es, ∃ c, pyFloat e.conf = .ok c) :
    create_text_layer f thr df (odOf es) size =
      .ok ⟨f, 8, ((chunkRuns (es.filter (passes thr))).map
        (write_text_block df size.2)).flatten⟩ := by
  rw [create_odOf, entries_run, runFrom_chunk thr df size.2 es _ hall,
    chunkAux_nil_buf]
  simp

/-! ### Confidence coercion congruence -/

/-- The loop body only observes a confidence entry through `float()`: two
words with the same coerced confidence and the same remaining fields are
processed identically. -/
theorem entryStep_congr (thr : ℚ) (df : DrawCmd → Bool) (H : Int)
    (st : LoopState) {e e' : Entry}
    (hcf : pyFloat e.conf = pyFloat e'.conf) (hbn : e.block_num = e'.block_num)
    (htx : e.text = e'.text) (hlf : e.left = e'.left) (htp : e.top = e'.top)
    (hwd : e.width = e'.width) (hht : e.height = e'.height) :
    entryStep thr df H st e = entryStep thr df H st e' := by
  rw [entryStep, entryStep, hcf]
  cases pyFloat e'.conf with
  | error err => rfl
  | ok c =>
    rw [except_bind_ok, except_bind_ok]
    by_cases hlt : c < thr
    · simp [hlt]
    · simp only [hlt, if_false, hbn, entryItem, htx, hlf, htp, hwd, hht]

/-- Replacing one word by a step-equivalent one does not change the run. -/
theorem runFrom_replace (thr : ℚ) (df : DrawCmd → Bool) (H : Int)
    (st : LoopState) (es1 es2 : List Entry) {e e' : Entry}
    (hstep : ∀ s, entryStep thr df H s e = entryStep thr df H s e') :
    runFrom thr df H st (es1 ++ e :: es2) =
      runFrom thr df H st (es1 ++ e' :: es2) := by
  rw [runFrom, runFrom, entriesGo_append, entriesGo_append]
  cases entriesGo thr df H st es1 with
  | error err => rfl
  | ok st' =>
    show (match (match entryStep thr df H st' e with
      | Except.error err => (Except.error err : Except PyError LoopState)
      | Except.ok s' => entriesGo thr df H s' es2) with
      | Except.error err => (Except.error err : Except PyError (List DrawCmd))
      | Except.ok s' => Except.ok (s'.cmds ++ flushOf df H s'.text_block)) = _
    rw [hstep st']
    rfl

/-! ### Lazy validation of the engine output -/

/-- A missing `text` field fails immediately (at `len(ocr_data['text'])`). -/
theorem create_text_missing (f : String) (thr : ℚ) (df : DrawCmd → Bool)
    (od : OcrData) (size : Int × Int) (h : od.text = none) :
    create_text_layer f thr df od size = .error (.keyError "text") := by
  rw [create_text_layer, layer_core, h]
  rfl

/-- A `conf` array shorter than a non-empty `text` array fails with an
`IndexError` on the very first iteration. -/
theorem create_conf_short (f : String) (thr : ℚ) (df : DrawCmd → Bool)
    (od : OcrData) (size : Int × Int) (t : List TChar) (ts : List (List TChar))
    (htext : od.text = some (t :: ts)) (hconf : od.conf = some []) :
    create_text_layer f thr df od size = .error .indexError := by
  have hstep : layer_step thr df size.2 od ⟨-1, [], []⟩ 0 =
      .error .indexError := by
    rw [layer_step, hconf]
    rfl
  have hrun : runIdx thr df size.2 od ⟨-1, [], []⟩
      (0 :: (List.range ts.length).map Nat.succ) = .error .indexError := by
    rw [runIdx, hstep]
  have hlc : layer_core thr df od size.2 = .error .indexError := by
    rw [layer_core, htext]
    rw [show getField (some (t :: ts)) "text" =
      (Except.ok (t :: ts) : Except PyError (List (List TChar))) from rfl]
    rw [except_bind_ok]
    rw [show (t :: ts).length = ts.length + 1 from rfl, List.range_succ_eq_map,
      hrun]
    rfl
  rw [create_text_layer, hlc]

/-! ### Pipeline lemmas -/

theorem errMsg_ne (e : PyError) : errMsg e ≠ "" := by
  cases e <;> simp only [errMsg] <;> decide

theorem create_parts {f : String} {thr : ℚ} {df : DrawCmd → Bool}
    {od : OcrData} {size : Int × Int} {l : Layer}
    (h : create_text_layer f thr df od size = .ok l) :
    l.font = f ∧ l.fontSize = 8 := by
  rw [create_text_layer] at h
  cases hc : layer_core thr df od size.2 with
  | error e => rw [hc] at h; exact absurd h (by simp)
  | ok cmds => rw [hc] at h; cases h; exact ⟨rfl, rfl⟩

theorem process_page_parts {w : World} {f : String} {thr : ℚ} {i : Nat}
    {p : PageOut} (h : process_page w f thr i = .ok p) :
    p.origIndex = i ∧ p.font = f ∧ p.fontSize = 8 ∧
      ∃ l, create_text_layer f thr w.drawFails (w.ocr i) (w.imageSize i) =
        .ok l ∧ p.cmds = l.cmds := by
  rw [process_page] at h
  split at h
  · exact absurd h (by simp)
  · split at h
    · exact absurd h (by simp)
    · next layer hc =>
      split at h
      · split at h
        · exact absurd h (by simp)
        · cases h
          obtain ⟨hf, hs⟩ := create_parts hc
          exact ⟨rfl, hf, hs, layer, hc, rfl⟩
      · exact absurd h (by simp)

theorem processPages_build {w : World} {f : String} {thr : ℚ}
    (pg : Nat → PageOut) :
    ∀ n : Nat, (∀ i, i < n → process_page w f thr i = .ok (pg i)) →
      processPages w f thr n = .ok ((List.range n).map pg) := by
  intro n
  induction n with
  | zero => intro _; rfl
  | succ n ih =>
    intro h
    have hih := ih (fun i hi => h i (Nat.lt_succ_of_lt hi))
    rw [processPages, hih, h n (Nat.lt_succ_self n), List.range_succ]
    simp

theorem processPages_font_mem {w : World} {f : String} {thr : ℚ} :
    ∀ {n : Nat} {ps : List PageOut}, processPages w f thr n = .ok ps →
      ∀ p ∈ ps, p.font = f := by
  intro n
  induction n with
  | zero =>
    intro ps h p hp
    rw [processPages] at h
    cases h
    exact absurd hp (by simp)
  | succ n ih =>
    intro ps h p hp
    rw [processPages] at h
    cases hn : processPages w f thr n with
    | error e => rw [hn] at h; exact absurd h (by simp)
    | ok acc =>
      rw [hn] at h
      cases hpn : process_page w f thr n with
      | error e => rw [hpn] at h; exact absurd h (by simp)
      | ok pgn =>
        rw [hpn] at h
        cases h
        rcases List.mem_append.mp hp with hpa | hpl
        · exact ih hn p hpa
        · rw [List.mem_singleton.mp hpl]
          exact (process_page_parts hpn).2.1

/-- All possible shapes of the post-validation run. -/
theorem after_validate_cases (w : World) (f : String) (thr : ℚ)
    (d : List (List String)) :
    (∃ e, after_validate w f thr d = mkFail e d) ∨
    (∃ ps, processPages w f thr w.numPages = .ok ps ∧
      (after_validate w f thr d = ⟨false, errMsg .writeError, true, false, [], d⟩ ∨
       after_validate w f thr d =
         ⟨true, "Processing completed successfully", true, true, ps, d⟩)) := by
  rw [after_validate]
  split
  · exact Or.inl ⟨_, rfl⟩
  · split
    · exact Or.inl ⟨_, rfl⟩
    · split
      · next e hp => exact Or.inl ⟨e, rfl⟩
      · next ps hp =>
        split
        · exact Or.inl ⟨_, rfl⟩
        · split
          · exact Or.inr ⟨ps, hp, Or.inl rfl⟩
          · exact Or.inr ⟨ps, hp, Or.inr rfl⟩

/-- All possible shapes of a `process_pdf` call. -/
theorem process_pdf_cases (w : World) (f : String) (thr : ℚ)
    (out : List String) :
    (w.inputExists = false ∧
      process_pdf w f thr out = mkFail .fileNotFound w.dirs) ∨
    (w.inputExists = true ∧ ∃ e, makedirs w.dirs (dirname out) = .error e ∧
      process_pdf w f thr out = mkFail e w.dirs) ∨
    (w.inputExists = true ∧ ∃ d', makedirs w.dirs (dirname out) = .ok d' ∧
      process_pdf w f thr out = after_validate w f thr d') := by
  rw [process_pdf]
  split
  · next hin => exact Or.inl ⟨by simpa using hin, rfl⟩
  · next hin =>
    have hin' : w.inputExists = true := by simpa using hin
    split
    · next e hmk => exact Or.inr (Or.inl ⟨hin', e, hmk, rfl⟩)
    · next d' hmk => exact Or.inr (Or.inr ⟨hin', d', hmk, rfl⟩)

/-- A failed run returns a non-empty message and no complete output. -/
theorem process_pdf_fail_shape (w : World) (f : String) (thr : ℚ)
    (out : List String) (h : (process_pdf w f thr out).success = false) :
    (process_pdf w f thr out).message ≠ "" ∧
      (process_pdf w f thr out).fileComplete = false := by
  rcases process_pdf_cases w f thr out with ⟨_, hr⟩ | ⟨_, e, _, hr⟩ | ⟨_, d', _, hr⟩
  · rw [hr]; exact ⟨errMsg_ne PyError.fileNotFound, rfl⟩
  · rw [hr]; exact ⟨errMsg_ne e, rfl⟩
  · rcases after_validate_cases w f thr d' with ⟨e, hav⟩ | ⟨ps, _, hav | hav⟩
    · rw [hr, hav]; exact ⟨errMsg_ne e, rfl⟩
    · rw [hr, hav]; exact ⟨errMsg_ne PyError.writeError, rfl⟩
    · rw [hr, hav] at h; exact absurd h (by simp)

/-- The output file exists afterwards only if every page was processed
successfully first. -/
theorem process_pdf_fileCreated (w : World) (f : String) (thr : ℚ)
    (out : List String)
    (h : (process_pdf w f thr out).fileCreated = true) :
    ∃ ps, processPages w f thr w.numPages = .ok ps := by
  rcases process_pdf_cases w f thr out with ⟨_, hr⟩ | ⟨_, e, _, hr⟩ | ⟨_, d', _, hr⟩
  · rw [hr] at h; exact absurd h (by simp [mkFail])
  · rw [hr] at h; exact absurd h (by simp [mkFail])
  · rcases after_validate_cases w f thr d' with ⟨e, hav⟩ | ⟨ps, hps, _ | _⟩
    · rw [hr, hav] at h; exact absurd h (by simp [mkFail])
    · exact ⟨ps, hps⟩
    · exact ⟨ps, hps⟩

/-! ### `makedirs` lemmas -/

theorem mem_ancestors_self : ∀ (d : List String), d ≠ [] → d ∈ ancestors d := by
  intro d
  induction d with
  | nil => intro h; exact absurd rfl h
  | cons a as ih =>
    intro _
    rw [ancestors]
    cases has : as with
    | nil => simp
    | cons b bs =>
      refine List.mem_cons_of_mem _ ?_
      refine List.mem_map.mpr ⟨as, ?_, by rw [has]⟩
      rw [has]
      exact has ▸ ih (by simp [has])

theorem makedirs_eq {dirs : List (List String)} {d : List String}
    (h : d ≠ []) :
    makedirs dirs d =
      .ok (dirs ++ (ancestors d).filter (fun p => !dirs.contains p)) := by
  rw [makedirs, if_neg]
  simp [h]

theorem mem_makedirs {dirs dirs' : List (List String)} {d p : List String}
    (h : makedirs dirs d = .ok dirs') (hp : p ∈ ancestors d) : p ∈ dirs' := by
  rw [makedirs] at h
  split at h
  · exact absurd h (by simp)
  · cases h
    by_cases hc : dirs.contains p
    · exact List.mem_append.mpr (Or.inl (List.elem_iff.mp hc))
    · refine List.mem_append.mpr (Or.inr ?_)
      rw [List.mem_filter]
      have hnm : p ∉ dirs := fun hmem => hc (List.elem_iff.mpr hmem)
      exact ⟨hp, by simpa using hnm⟩

/-- `exist_ok=True`: running `makedirs` again on the directories it just
created succeeds and changes nothing. -/
theorem makedirs_idem {dirs dirs' : List (List String)} {d : List String}
    (h : makedirs dirs d = .ok dirs') : makedirs dirs' d = .ok dirs' := by
  have hd : ¬ d.isEmpty := by
    intro hd
    rw [makedirs, if_pos hd] at h
    exact absurd h (by simp)
  have hne : d ≠ [] := by
    cases d with
    | nil => exact absurd rfl hd
    | cons a as => simp
  rw [makedirs_eq hne]
  have hfil : (ancestors d).filter (fun p => !dirs'.contains p) = [] := by
    rw [List.filter_eq_nil_iff]
    intro p hp
    simpa using mem_makedirs h hp
  rw [hfil, List.append_nil]

theorem process_pdf_validate_ok {w : World} {f : String} {thr : ℚ}
    {out : List String} {d' : List (List String)}
    (hin : w.inputExists = true)
    (hmk : makedirs w.dirs (dirname out) = .ok d') :
    process_pdf w f thr out = after_validate w f thr d' := by
  rw [process_pdf, hin, hmk]
  rfl

/-! ### Font independence -/

/-- The synthesized commands and the error behaviour of
`_create_text_layer` do not depend on the configured font name; only the
layer's recorded font does. -/
theorem create_font_pair (f f' : String) (thr : ℚ) (df : DrawCmd → Bool)
    (od : OcrData) (size : Int × Int) :
    (∃ e, create_text_layer f thr df od size = .error e ∧
      create_text_layer f' thr df od size = .error e) ∨
    (∃ cmds, create_text_layer f thr df od size = .ok ⟨f, 8, cmds⟩ ∧
      create_text_layer f' thr df od size = .ok ⟨f', 8, cmds⟩) := by
  rw [create_text_layer, create_text_layer]
  cases hlc : layer_core thr df od size.2 with
  | error e => exact Or.inl ⟨e, rfl, rfl⟩
  | ok cmds => exact Or.inr ⟨cmds, rfl, rfl⟩

theorem process_page_font_pair (w : World) (f f' : String) (thr : ℚ)
    (i : Nat) :
    (∃ e, process_page w f thr i = .error e ∧
      process_page w f' thr i = .error e) ∨
    (∃ c, process_page w f thr i = .ok ⟨i, f, 8, c⟩ ∧
      process_page w f' thr i = .ok ⟨i, f', 8, c⟩) := by
  rw [process_page, process_page]
  by_cases ho : w.ocrFails i
  · rw [if_pos ho, if_pos ho]; exact Or.inl ⟨_, rfl, rfl⟩
  · rw [if_neg ho, if_neg ho]
    rcases create_font_pair f f' thr w.drawFails (w.ocr i) (w.imageSize i) with
      ⟨e, h1, h2⟩ | ⟨cmds, h1, h2⟩
    · rw [h1, h2]; exact Or.inl ⟨e, rfl, rfl⟩
    · rw [h1, h2]
      by_cases hn : i < w.numPages
      · by_cases hm : w.mergeFails i
        · refine Or.inl ⟨.mergeError, ?_, ?_⟩ <;> simp [hn, hm]
        · refine Or.inr ⟨cmds, ?_, ?_⟩ <;> simp [hn, hm]
      · refine Or.inl ⟨.indexError, ?_, ?_⟩ <;> simp [hn]

theorem processPages_font_pair (w : World) (f f' : String) (thr : ℚ) :
    ∀ n : Nat,
      (∃ e, processPages w f thr n = .error e ∧
        processPages w f' thr n = .error e) ∨
      (∃ ps ps', processPages w f thr n = .ok ps ∧
        processPages w f' thr n = .ok ps') := by
  intro n
  induction n with
  | zero => exact Or.inr ⟨[], [], rfl, rfl⟩
  | succ n ih =>
    rw [processPages, processPages]
    rcases ih with ⟨e, h1, h2⟩ | ⟨ps, ps', h1, h2⟩
    · rw [h1, h2]; exact Or.inl ⟨e, rfl, rfl⟩
    · rw [h1, h2]
      rcases process_page_font_pair w f f' thr n with ⟨e, hp1, hp2⟩ |
        ⟨c, hp1, hp2⟩
      · rw [hp1, hp2]; exact Or.inl ⟨e, rfl, rfl⟩
      · rw [hp1, hp2]; exact Or.inr ⟨_, _, rfl, rfl⟩

/-- Exactly when the post-validation run succeeds. -/
theorem after_validate_success_iff (w : World) (f : String) (thr : ℚ)
    (d : List (List String)) :
    (after_validate w f thr d).success = true ↔
      (w.convertFails = false ∧ w.readFails = false ∧
       (∃ ps, processPages w f thr w.numPages = .ok ps) ∧
       w.openFails = false ∧ w.writeFails = false) := by
  rw [after_validate]
  split
  · next hcv => simp [mkFail, hcv]
  · next hcv =>
    split
    · next hr => simp [mkFail, hr]
    · next hr =>
      split
      · next e heq => simp [mkFail, heq]
      · next ps heq =>
        split
        · next hop => simp [mkFail, hop]
        · next hop =>
          split
          · next hw => simp [hw]
          · next hw => simp [heq, hcv, hr, hop, hw]

/-- Exactly when a `process_pdf` call succeeds. -/
theorem process_pdf_success_iff (w : World) (f : String) (thr : ℚ)
    (out : List String) :
    (process_pdf w f thr out).success = true ↔
      (w.inputExists = true ∧
       ∃ d', makedirs w.dirs (dirname out) = .ok d' ∧
         (after_validate w f thr d').success = true) := by
  rcases process_pdf_cases w f thr out with ⟨hin, hr⟩ | ⟨hin, e, hmk, hr⟩ |
    ⟨hin, d', hmk, hr⟩
  · rw [hr]; simp [mkFail, hin]
  · rw [hr]; simp [mkFail, hin, hmk]
  · rw [hr]; simp [hin, hmk]

/-- The success of the whole run does not depend on the font name used for
drawing (font registration failure only changes the font, never the
result). -/
theorem process_pdf_success_font (w : World) (f f' : String) (thr : ℚ)
    (out : List String) :
    (process_pdf w f thr out).success = (process_pdf w f' thr out).success := by
  have key : ∀ g g' : String,
      (process_pdf w g thr out).success = true →
      (process_pdf w g' thr out).success = true := by
    intro g g' h
    rw [process_pdf_success_iff] at h ⊢
    obtain ⟨hin, d', hmk, hav⟩ := h
    refine ⟨hin, d', hmk, ?_⟩
    rw [after_validate_success_iff] at hav ⊢
    obtain ⟨h1, h2, ⟨ps, hps⟩, h4, h5⟩ := hav
    refine ⟨h1, h2, ?_, h4, h5⟩
    rcases processPages_font_pair w g g' thr w.numPages with ⟨e, hp1, _⟩ |
      ⟨ps1, ps2, _, hp2⟩
    · rw [hps] at hp1; exact absurd hp1 (by simp)
    · exact ⟨ps2, hp2⟩
  by_cases h : (process_pdf w f thr out).success = true
  · rw [h, key f f' h]
  · have h' : (process_pdf w f' thr out).success = false := by
      cases hs : (process_pdf w f' thr out).success with
      | false => rfl
      | true => exact absurd (key f' f hs) h
    rw [h', Bool.not_eq_true] at *
    rw [h]

/-- Every page of a run's output carries the configured font. -/
theorem process_pdf_pages_font (w : World) (f : String) (thr : ℚ)
    (out : List String) (p : PageOut)
    (hp : p ∈ (process_pdf w f thr out).pages) : p.font = f := by
  rcases process_pdf_cases w f thr out with ⟨_, hr⟩ | ⟨_, e, _, hr⟩ |
    ⟨_, d', _, hr⟩
  · rw [hr] at hp; exact absurd hp (by simp [mkFail])
  · rw [hr] at hp; exact absurd hp (by simp [mkFail])
  · rcases after_validate_cases w f thr d' with ⟨e, hav⟩ | ⟨ps, hps, hav | hav⟩
    · rw [hr, hav] at hp; exact absurd hp (by simp [mkFail])
    · rw [hr, hav] at hp; exact absurd hp (by simp)
    · rw [hr, hav] at hp
      exact processPages_font_mem hps p hp

/-! ### Remaining pipeline helpers -/

theorem runFrom_append (thr : ℚ) (df : DrawCmd → Bool) (H : Int)
    (l1 l2 : List Entry) (st : LoopState) :
    runFrom thr df H st (l1 ++ l2) =
      match entriesGo thr df H st l1 with
      | .error e => .error e
      | .ok st' => runFrom thr df H st' l2 := by
  rw [runFrom, entriesGo_append]
  cases entriesGo thr df H st l1 with
  | error e => rfl
  | ok st' => rfl

/-- A fully successful run: the written document holds exactly the
processed pages, in order. -/
theorem after_validate_ok {w : World} {f : String} {thr : ℚ}
    {d : List (List String)} {ps : List PageOut}
    (hcv : w.convertFails = false) (hrd : w.readFails = false)
    (hps : processPages w f thr w.numPages = .ok ps)
    (hop : w.openFails = false) (hwr : w.writeFails = false) :
    after_validate w f thr d =
      ⟨true, "Processing completed successfully", true, true, ps, d⟩ := by
  rw [after_validate, hcv, hrd, hps, hop, hwr]
  rfl

theorem processPages_font_flags (w : World) (ff rf : Bool) (f : String)
    (thr : ℚ) : ∀ n : Nat,
    processPages { w with fontFileExists := ff, registerFails := rf } f thr n =
      processPages w f thr n := by
  intro n
  induction n with
  | zero => rfl
  | succ n ih =>
    rw [processPages, processPages, ih]
    rfl

theorem after_validate_font_flags (w : World) (ff rf : Bool) (f : String)
    (thr : ℚ) (d : List (List String)) :
    after_validate { w with fontFileExists := ff, registerFails := rf } f thr d =
      after_validate w f thr d := by
  rw [after_validate, after_validate, processPages_font_flags]

/-- The font-availability flags influence a run only through the font name
chosen by `_setup_font`. -/
theorem process_pdf_font_flags (w : World) (ff rf : Bool) (f : String)
    (thr : ℚ) (out : List String) :
    process_pdf { w with fontFileExists := ff, registerFails := rf } f thr out =
      process_pdf w f thr out := by
  rw [process_pdf, process_pdf]
  simp only [after_validate_font_flags]

/-! ### Concrete inputs used by witnesses and counterexamples -/

/-- A drawing oracle under which no `drawString` call fails. -/
def noDrawFail : DrawCmd → Bool := fun _ => false

/-- Engine output for a page with no recognized words. -/
def odEmpty : OcrData :=
  ⟨some [], some [], some [], some [], some [], some [], some []⟩

/-- A world in which every step succeeds: one blank page, no failures. -/
def wBase : World :=
  ⟨true, [], 1, false, false, fun _ => false, fun _ => odEmpty,
   fun _ => (2550, 3300), noDrawFail, fun _ => false, false, false,
   true, false⟩

/-! ## Claim theorems -/

/-- Claim C2: every word drawn by `_write_text_block` on a page of height
`H` is drawn at horizontal coordinate `x` unchanged and vertical coordinate
`H - y - height` (top-left origin flipped to bottom-left origin); each
emitted command comes from a word of the block at exactly those
coordinates, and each drawable word's command is emitted there. -/
theorem c2_coordinate_flip (df : DrawCmd → Bool) (H : Int)
    (block : List WordItem) :
    (∀ cmd ∈ write_text_block df H block,
      ∃ w ∈ block, cmd.x = w.x ∧ cmd.y = H - w.y - w.height) ∧
    (∀ w ∈ block, (pyStrip w.text).isEmpty = false →
      df (itemCmd H w) = false →
      (⟨w.x, H - w.y - w.height, sanitize (pyStrip w.text)⟩ : DrawCmd) ∈
        write_text_block df H block) := by
  constructor
  · intro cmd hcmd
    obtain ⟨w, hw, hc⟩ := wtb_shape df H block cmd hcmd
    exact ⟨w, hw, by rw [hc]; rfl, by rw [hc]; rfl⟩
  · intro w hw he hd
    exact wtb_mem df H hw he hd

/-- Witness for C2: a word at top-origin `y = 100` with height `20` on a
page of height `1000` is drawn at vertical coordinate `880`. -/
theorem c2_coordinate_flip_witness :
    (⟨10, 880, [TChar.ch 'h']⟩ : DrawCmd) ∈
      write_text_block noDrawFail 1000 [⟨[TChar.ch 'h'], 10, 100, 50, 20⟩] :=
  (c2_coordinate_flip noDrawFail 1000 [⟨[TChar.ch 'h'], 10, 100, 50, 20⟩]).2
    ⟨[TChar.ch 'h'], 10, 100, 50, 20⟩ (by simp) (by decide) (by decide)

/-- Claim C3: `_create_text_layer` groups words into blocks only by
contiguous runs of equal block id in input order — on well-formed input
with parseable confidences, the layer is exactly the concatenation, in
order, of the flushes of the contiguous runs (`chunkRuns`) of the
confidence-passing words; filtered words are invisible to the grouping,
the final block is flushed at end of input, and non-adjacent runs with the
same id stay separate. -/
theorem c3_contiguous_blocks (f : String) (thr : ℚ) (df : DrawCmd → Bool)
    (es : List Entry) (size : Int × Int)
    (hall : ∀ e ∈ es, ∃ c, pyFloat e.conf = .ok c) :
    create_text_layer f thr df (odOf es) size =
      .ok ⟨f, 8, ((chunkRuns (es.filter (passes thr))).map
        (write_text_block df size.2)).flatten⟩ := by
  rw [create_odOf, entries_run, runFrom_chunk thr df size.2 es _ hall,
    chunkAux_nil_buf]
  simp

/-- Entries with block ids `[1, 1, 2, 1]`, all passing the threshold. -/
def esRuns : List Entry :=
  [⟨.num 90, 1, [TChar.ch 'a'], 1, 2, 3, 4⟩,
   ⟨.num 90, 1, [TChar.ch 'b'], 5, 6, 7, 8⟩,
   ⟨.num 90, 2, [TChar.ch 'c'], 9, 10, 11, 12⟩,
   ⟨.num 90, 1, [TChar.ch 'd'], 13, 14, 15, 16⟩]

/-- Witness for C3: block ids `[1, 1, 2, 1]` produce exactly three flushed
groups in order — first id-1 run, id-2 run, second id-1 run — never
merging the two id-1 runs. -/
theorem c3_contiguous_blocks_witness :
    create_text_layer "Helvetica" 60 noDrawFail (odOf esRuns) (500, 1000) =
      .ok ⟨"Helvetica", 8, ((chunkRuns (esRuns.filter (passes 60))).map
        (write_text_block noDrawFail 1000)).flatten⟩ ∧
    chunkRuns (esRuns.filter (passes 60)) =
      [[⟨[TChar.ch 'a'], 1, 2, 3, 4⟩, ⟨[TChar.ch 'b'], 5, 6, 7, 8⟩],
       [⟨[TChar.ch 'c'], 9, 10, 11, 12⟩],
       [⟨[TChar.ch 'd'], 13, 14, 15, 16⟩]] :=
  ⟨c3_contiguous_blocks "Helvetica" 60 noDrawFail esRuns (500, 1000)
    (by
      intro e he
      refine ⟨90, ?_⟩
      rcases (by simpa [esRuns] using he :
        e = ⟨.num 90, 1, [TChar.ch 'a'], 1, 2, 3, 4⟩ ∨
        e = ⟨.num 90, 1, [TChar.ch 'b'], 5, 6, 7, 8⟩ ∨
        e = ⟨.num 90, 2, [TChar.ch 'c'], 9, 10, 11, 12⟩ ∨
        e = ⟨.num 90, 1, [TChar.ch 'd'], 13, 14, 15, 16⟩) with
        rfl | rfl | rfl | rfl <;> rfl),
   by decide⟩

/-- Claim C5 (amended): a per-word drawing failure is caught and the word
skipped without aborting the block, and a word whose text is empty after
trimming is skipped; but a word emptied only by sanitization (non-empty
after `strip()`, empty after `encode('utf-8','ignore')`) is not skipped —
its `drawString` call is still issued, with empty text; in every case the
remaining words of the block are still drawn. -/
theorem c5_per_word_recovery (df : DrawCmd → Bool) (H : Int)
    (b1 b2 : List WordItem) (w : WordItem) :
    (df (itemCmd H w) = true →
      write_text_block df H (b1 ++ w :: b2) =
        write_text_block df H b1 ++ write_text_block df H b2) ∧
    ((pyStrip w.text).isEmpty = true →
      write_text_block df H (b1 ++ w :: b2) =
        write_text_block df H b1 ++ write_text_block df H b2) ∧
    ((pyStrip w.text).isEmpty = false → df (itemCmd H w) = false →
      write_text_block df H (b1 ++ w :: b2) =
        write_text_block df H b1 ++ itemCmd H w :: write_text_block df H b2) := by
  have hsplit : write_text_block df H (b1 ++ w :: b2) =
      write_text_block df H b1 ++ write_text_block df H [w] ++
        write_text_block df H b2 := by
    rw [show b1 ++ w :: b2 = (b1 ++ [w]) ++ b2 by simp, wtb_append, wtb_append]
  refine ⟨?_, ?_, ?_⟩
  · intro hd
    rw [hsplit, wtb_single]
    by_cases he : (pyStrip w.text).isEmpty <;> simp [he, hd]
  · intro he
    rw [hsplit, wtb_single]
    simp [he]
  · intro he hd
    rw [hsplit, wtb_single]
    simp [he, hd]

/-- A word whose text is a single lone surrogate: non-empty after
trimming, empty after sanitization. -/
def surWord : WordItem := ⟨[TChar.sur], 10, 100, 50, 20⟩

/-- Counterexample to C5 as stated: for a word that is empty only after
sanitization, `_write_text_block` does emit a draw command (with empty
text) rather than skipping the word. -/
theorem c5_per_word_recovery_counterexample :
    (pyStrip surWord.text).isEmpty = false ∧
    (sanitize (pyStrip surWord.text)).isEmpty = true ∧
    write_text_block noDrawFail 1000 [surWord] =
      [⟨10, 880, []⟩] := by decide

/-- A drawing oracle that fails exactly on commands at `x = 99`. -/
def drawFailAt99 : DrawCmd → Bool := fun c => c.x == 99

/-- Witness for C5: a failing word in the middle of a block is skipped
while both its neighbours are still drawn. -/
theorem c5_per_word_recovery_witness :
    write_text_block drawFailAt99 1000
        ([⟨[TChar.ch 'a'], 1, 2, 3, 4⟩] ++ ⟨[TChar.ch 'x'], 99, 2, 3, 4⟩ ::
          [⟨[TChar.ch 'b'], 5, 6, 7, 8⟩]) =
      write_text_block drawFailAt99 1000 [⟨[TChar.ch 'a'], 1, 2, 3, 4⟩] ++
        write_text_block drawFailAt99 1000 [⟨[TChar.ch 'b'], 5, 6, 7, 8⟩] ∧
    write_text_block drawFailAt99 1000 [⟨[TChar.ch 'a'], 1, 2, 3, 4⟩] ++
        write_text_block drawFailAt99 1000 [⟨[TChar.ch 'b'], 5, 6, 7, 8⟩] =
      [⟨1, 994, [TChar.ch 'a']⟩, ⟨5, 986, [TChar.ch 'b']⟩] :=
  ⟨(c5_per_word_recovery drawFailAt99 1000 [⟨[TChar.ch 'a'], 1, 2, 3, 4⟩]
      [⟨[TChar.ch 'b'], 5, 6, 7, 8⟩] ⟨[TChar.ch 'x'], 99, 2, 3, 4⟩).1
    (by decide), by decide⟩

/-- Claim C1: the confidence filter of `_create_text_layer` is strict: a
word whose coerced confidence is strictly below the threshold contributes
no drawing command (deleting it from all arrays leaves the layer
unchanged), while a word whose confidence equals the threshold exactly is
not filtered out — when the page's run succeeds, its stripped text is
non-empty and its `drawString` does not fail, its command appears in the
layer. -/
theorem c1_strict_confidence_filter (f : String) (thr c : ℚ)
    (df : DrawCmd → Bool) (size : Int × Int) (es1 es2 : List Entry)
    (e : Entry) (hc : pyFloat e.conf = .ok c) :
    (c < thr →
      create_text_layer f thr df (odOf (es1 ++ e :: es2)) size =
        create_text_layer f thr df (odOf (es1 ++ es2)) size) ∧
    (c = thr → ∀ l,
      create_text_layer f thr df (odOf (es1 ++ e :: es2)) size = .ok l →
      (pyStrip e.text).isEmpty = false →
      df (itemCmd size.2 (entryItem e)) = false →
      itemCmd size.2 (entryItem e) ∈ l.cmds) := by
  constructor
  · intro hlt
    exact create_erase f thr df hc hlt es1 es2 size
  · intro hceq l hok he hd
    have hge : ¬ c < thr := by rw [hceq]; exact lt_irrefl thr
    rw [create_odOf] at hok
    cases hrun : entries_run thr df size.2 (es1 ++ e :: es2) with
    | error err => rw [hrun] at hok; exact absurd hok (by simp)
    | ok cmds =>
      rw [hrun] at hok
      cases hok
      show itemCmd size.2 (entryItem e) ∈ cmds
      rw [entries_run, runFrom_append] at hrun
      cases hgo : entriesGo thr df size.2 ⟨-1, [], []⟩ es1 with
      | error err => rw [hgo] at hrun; exact absurd hrun (by simp)
      | ok st =>
        rw [hgo] at hrun
        have hstep : ∃ st1, entryStep thr df size.2 st e = .ok st1 ∧
            entryItem e ∈ st1.text_block := by
          by_cases hbn : e.block_num = st.last_block_num
          · exact ⟨_, entryStep_keep hc hge df size.2 st hbn, by simp⟩
          · exact ⟨_, entryStep_flush hc hge df size.2 st hbn, by simp⟩
        obtain ⟨st1, hs, hmem⟩ := hstep
        have hrun2 : runFrom thr df size.2 st (e :: es2) = .ok cmds := hrun
        have hrun' : runFrom thr df size.2 st1 es2 = .ok cmds := by
          rw [runFrom] at hrun2 ⊢
          simp only [entriesGo, hs] at hrun2
          exact hrun2
        exact runFrom_mem_buffer thr df size.2 es2 st1 cmds _ hrun' hmem he hd

/-- A word record whose confidence equals the default threshold 60. -/
def eAtThr : Entry := ⟨.num 60, 3, [TChar.ch 'w'], 7, 11, 13, 17⟩

/-- A word record with confidence 59, strictly below the threshold. -/
def eBelow : Entry := ⟨.num 59, 3, [TChar.ch 'z'], 8, 12, 14, 18⟩

/-- Witness for C1: with threshold 60, a confidence-59 word is erased from
the layer, and a confidence-60 word's command is drawn. -/
theorem c1_strict_confidence_filter_witness :
    create_text_layer "Helvetica" 60 noDrawFail (odOf ([] ++ eBelow :: []))
        (500, 1000) =
      create_text_layer "Helvetica" 60 noDrawFail (odOf ([] ++ []))
        (500, 1000) ∧
    itemCmd 1000 (entryItem eAtThr) ∈
      (⟨"Helvetica", 8, [⟨7, 972, [TChar.ch 'w']⟩]⟩ : Layer).cmds :=
  ⟨(c1_strict_confidence_filter "Helvetica" 60 59 noDrawFail (500, 1000)
      [] [] eBelow rfl).1 (by norm_num),
   (c1_strict_confidence_filter "Helvetica" 60 60 noDrawFail (500, 1000)
      [] [] eAtThr rfl).2 rfl ⟨"Helvetica", 8, [⟨7, 972, [TChar.ch 'w']⟩]⟩
      (by decide) (by decide) (by decide)⟩

/-- Claim C10: confidences are coerced with `float()` before the
comparison: an entry whose coerced confidence is `-1` (the engine's
structural rows) is never drawn under any non-negative threshold and,
being skipped, leaves the block state untouched (deleting it changes
nothing); and a confidence given as a numeric string behaves identically
to the same confidence given as a number. -/
theorem c10_conf_coercion (f : String) (thr : ℚ) (df : DrawCmd → Bool)
    (size : Int × Int) (es1 es2 : List Entry) (e : Entry) :
    (∀ c, pyFloat e.conf = .ok c → c = -1 → 0 ≤ thr →
      create_text_layer f thr df (odOf (es1 ++ e :: es2)) size =
        create_text_layer f thr df (odOf (es1 ++ es2)) size) ∧
    (∀ q : ℚ,
      create_text_layer f thr df
          (odOf (es1 ++ { e with conf := ConfVal.numStr q } :: es2)) size =
        create_text_layer f thr df
          (odOf (es1 ++ { e with conf := ConfVal.num q } :: es2)) size) := by
  constructor
  · intro c hc hneg hthr
    have hlt : c < thr := by
      rw [hneg]
      exact lt_of_lt_of_le (by norm_num) hthr
    exact create_erase f thr df hc hlt es1 es2 size
  · intro q
    rw [create_odOf, create_odOf, entries_run, entries_run,
      @runFrom_replace thr df size.2 ⟨-1, [], []⟩ es1 es2
        { e with conf := ConfVal.numStr q } { e with conf := ConfVal.num q }
        (fun s => @entryStep_congr thr df size.2 s
          { e with conf := ConfVal.numStr q } { e with conf := ConfVal.num q }
          rfl rfl rfl rfl rfl rfl rfl)]

/-- A structural (non-word) engine row: confidence the numeric string
representing -1. -/
def eStructRow : Entry := ⟨.numStr (-1), 0, [], 0, 0, 0, 0⟩

/-- Witness for C10: the string-confidence `-1` row is erased under
threshold 60, and its numeric-string confidence behaves like the number. -/
theorem c10_conf_coercion_witness :
    create_text_layer "Helvetica" 60 noDrawFail (odOf ([] ++ eStructRow :: []))
        (500, 1000) =
      create_text_layer "Helvetica" 60 noDrawFail (odOf ([] ++ []))
        (500, 1000) ∧
    create_text_layer "Helvetica" 60 noDrawFail
        (odOf ([] ++ { eStructRow with conf := ConfVal.numStr (-1) } :: []))
        (500, 1000) =
      create_text_layer "Helvetica" 60 noDrawFail
        (odOf ([] ++ { eStructRow with conf := ConfVal.num (-1) } :: []))
        (500, 1000) :=
  ⟨(c10_conf_coercion "Helvetica" 60 noDrawFail (500, 1000) [] []
      eStructRow).1 (-1) rfl rfl (by norm_num),
   (c10_conf_coercion "Helvetica" 60 noDrawFail (500, 1000) [] []
      eStructRow).2 (-1)⟩

/-- Claim C6 (amended): the adapter performs no up-front structural
validation; a missing field or a too-short array raises only when first
accessed — a missing `text` field always fails, a `conf` array shorter
than a non-empty `text` array fails on the first iteration — and any such
page error makes the whole run fail with no output file and no per-page
recovery; but a mismatch that is never accessed (for instance a missing
`conf` field alongside an empty `text` array) produces no error at all. -/
theorem c6_lazy_validation (f : String) (thr : ℚ) (df : DrawCmd → Bool)
    (od : OcrData) (size : Int × Int) :
    (od.text = none →
      create_text_layer f thr df od size = .error (.keyError "text")) ∧
    (∀ t ts, od.text = some (t :: ts) → od.conf = some [] →
      create_text_layer f thr df od size = .error .indexError) ∧
    (∀ (w : World) (fn : String) (d : List (List String)) (e : PyError),
      processPages w fn thr w.numPages = .error e →
      (after_validate w fn thr d).success = false ∧
      (after_validate w fn thr d).fileCreated = false) := by
  refine ⟨fun h => create_text_missing f thr df od size h,
    fun t ts ht hc => create_conf_short f thr df od size t ts ht hc, ?_⟩
  intro w fn d e he
  rcases after_validate_cases w fn thr d with ⟨e', hav⟩ | ⟨ps, hps, _⟩
  · rw [hav]; exact ⟨rfl, rfl⟩
  · rw [hps] at he; exact absurd he (by simp)

/-- Engine output whose `conf` field is missing while `text` is an empty
array: a structural mismatch the code never notices. -/
def odNoConf : OcrData := ⟨some [], none, none, none, none, none, none⟩

/-- Counterexample to C6 as stated: a required field (`conf`) is missing,
yet `_create_text_layer` succeeds and produces an empty layer instead of
failing with a structural-validation error. -/
theorem c6_lazy_validation_counterexample :
    odNoConf.conf = none ∧
    create_text_layer "Helvetica" 60 noDrawFail odNoConf (100, 100) =
      .ok ⟨"Helvetica", 8, []⟩ := by decide

/-- Witness for C6: a missing `text` field fails (with the corresponding
`KeyError`), observed at a concrete input. -/
theorem c6_lazy_validation_witness :
    create_text_layer "Helvetica" 60 noDrawFail
        ⟨none, none, none, none, none, none, none⟩ (100, 100) =
      .error (.keyError "text") :=
  (c6_lazy_validation "Helvetica" 60 noDrawFail
    ⟨none, none, none, none, none, none, none⟩ (100, 100)).1 rfl

/-- Claim C9 (amended): when the input exists and the output path has a
non-empty parent directory component, the Validate step creates that
parent directory (and its ancestors) if absent, the creation is idempotent
— running `makedirs` again on the result succeeds and changes nothing —
and processing proceeds past validation; but this does not hold for every
output path: a bare filename has an empty `dirname`, on which
`os.makedirs` raises and the whole run fails. -/
theorem c9_output_dir_creation (w : World) (f : String) (thr : ℚ)
    (out : List String) (hin : w.inputExists = true)
    (hdir : dirname out ≠ []) :
    ∃ d', makedirs w.dirs (dirname out) = .ok d' ∧
      dirname out ∈ d' ∧
      makedirs d' (dirname out) = .ok d' ∧
      process_pdf w f thr out = after_validate w f thr d' := by
  have hmk := @makedirs_eq w.dirs (dirname out) hdir
  exact ⟨_, hmk, mem_makedirs hmk (mem_ancestors_self _ hdir),
    makedirs_idem hmk, process_pdf_validate_ok hin hmk⟩

/-- Counterexample to C9 as stated: with an existing input but an output
path that has no directory component, `os.makedirs('')` raises and the
run fails instead of proceeding. -/
theorem c9_output_dir_creation_counterexample :
    wBase.inputExists = true ∧
    (processDocument wBase ["out.pdf"]).success = false := by decide

/-- Witness for C9: for an output path with a parent directory, validation
creates the directory idempotently and the run proceeds. -/
theorem c9_output_dir_creation_witness :
    ∃ d', makedirs wBase.dirs (dirname ["o", "out.pdf"]) = .ok d' ∧
      dirname ["o", "out.pdf"] ∈ d' ∧
      makedirs d' (dirname ["o", "out.pdf"]) = .ok d' ∧
      process_pdf wBase "Helvetica" 60 ["o", "out.pdf"] =
        after_validate wBase "Helvetica" 60 d' :=
  c9_output_dir_creation wBase "Helvetica" 60 ["o", "out.pdf"] rfl (by decide)

/-- Claim C4 (amended): a failure at any step makes `process_pdf` return a
failure result with a non-empty message and no complete output document —
in particular a missing input file yields a failure with no file created
at the output path — and the output file is only ever created after every
page has been processed successfully; however, when the failing step is
the final write itself, a (partial) file does exist at the output path. -/
theorem c4_failure_handling (w : World) (out : List String) :
    (w.inputExists = false →
      (processDocument w out).success = false ∧
      (processDocument w out).message ≠ "" ∧
      (processDocument w out).fileCreated = false) ∧
    ((processDocument w out).success = false →
      (processDocument w out).message ≠ "" ∧
      (processDocument w out).fileComplete = false) ∧
    ((processDocument w out).fileCreated = true →
      ∃ ps, processPages w (setup_font w) 60 w.numPages = .ok ps) := by
  refine ⟨?_, ?_, ?_⟩
  · intro hin
    rcases process_pdf_cases w (setup_font w) 60 out with ⟨_, hr⟩ |
      ⟨hin', _, _, _⟩ | ⟨hin', _, _, _⟩
    · rw [processDocument, hr]
      exact ⟨rfl, errMsg_ne PyError.fileNotFound, rfl⟩
    · rw [hin] at hin'; exact absurd hin' (by simp)
    · rw [hin] at hin'; exact absurd hin' (by simp)
  · intro h
    exact process_pdf_fail_shape w (setup_font w) 60 out h
  · intro h
    exact process_pdf_fileCreated w (setup_font w) 60 out h

/-- A world in which everything succeeds except the final `writer.write`. -/
def wWriteFail : World := { wBase with writeFails := true }

/-- Counterexample to C4 as stated: when the final write fails, the call
returns a failure result, yet a file has been created at the output path
(`open(output_path, 'wb')` precedes the failing write). -/
theorem c4_failure_handling_counterexample :
    (processDocument wWriteFail ["o", "out.pdf"]).success = false ∧
    (processDocument wWriteFail ["o", "out.pdf"]).fileCreated = true := by
  decide

/-- A world whose input path does not exist. -/
def wNoInput : World := { wBase with inputExists := false }

/-- Witness for C4: a missing input file yields a failure result with a
message and creates no file at the output path. -/
theorem c4_failure_handling_witness :
    (processDocument wNoInput ["o", "out.pdf"]).success = false ∧
    (processDocument wNoInput ["o", "out.pdf"]).message ≠ "" ∧
    (processDocument wNoInput ["o", "out.pdf"]).fileCreated = false :=
  (c4_failure_handling wNoInput ["o", "out.pdf"]).1 rfl

/-- Claim C7: a fully successful run writes an output document with the
same page count as the input, page `i` of the output derived from page `i`
of the input in order `0 .. N-1` (carrying that page's synthesized layer);
a page whose recognition yields no drawable words still appears at its
index, with a layer of zero draw commands and no error. -/
theorem c7_page_preservation (w : World) (out : List String)
    (pg : Nat → PageOut) (hin : w.inputExists = true)
    (hdir : dirname out ≠ []) (hcv : w.convertFails = false)
    (hrd : w.readFails = false) (hop : w.openFails = false)
    (hwr : w.writeFails = false)
    (hpg : ∀ i, i < w.numPages →
      process_page w (setup_font w) 60 i = .ok (pg i)) :
    (processDocument w out).success = true ∧
    (processDocument w out).fileComplete = true ∧
    (processDocument w out).pages.length = w.numPages ∧
    (∀ i, i < w.numPages →
      (processDocument w out).pages[i]? = some (pg i) ∧
      (pg i).origIndex = i ∧
      ∃ l, create_text_layer (setup_font w) 60 w.drawFails (w.ocr i)
          (w.imageSize i) = .ok l ∧ (pg i).cmds = l.cmds) := by
  have hmk := @makedirs_eq w.dirs (dirname out) hdir
  have hpp := processPages_build pg w.numPages hpg
  have hdoc : processDocument w out =
      ⟨true, "Processing completed successfully", true, true,
        (List.range w.numPages).map pg,
        w.dirs ++ (ancestors (dirname out)).filter
          (fun p => !w.dirs.contains p)⟩ := by
    rw [processDocument, process_pdf_validate_ok hin hmk,
      after_validate_ok hcv hrd hpp hop hwr]
  rw [hdoc]
  refine ⟨rfl, rfl, by simp, ?_⟩
  intro i hi
  refine ⟨?_, (process_page_parts (hpg i hi)).1, ?_⟩
  · show ((List.range w.numPages).map pg)[i]? = some (pg i)
    simp [List.getElem?_map, List.getElem?_range hi]
  · obtain ⟨_, _, _, l, hl, hc⟩ := process_page_parts (hpg i hi)
    exact ⟨l, hl, hc⟩

/-- Witness for C7: a one-page document whose page recognizes no words
still yields a one-page output, its single page at index 0 carrying an
empty layer, with the run succeeding. -/
theorem c7_page_preservation_witness :
    (processDocument wBase ["o", "out.pdf"]).success = true ∧
    (processDocument wBase ["o", "out.pdf"]).fileComplete = true ∧
    (processDocument wBase ["o", "out.pdf"]).pages.length = wBase.numPages ∧
    (∀ i, i < wBase.numPages →
      (processDocument wBase ["o", "out.pdf"]).pages[i]? =
        some ((fun _ => (⟨0, "0xProto-Regular", 8, []⟩ : PageOut)) i) ∧
      ((fun _ => (⟨0, "0xProto-Regular", 8, []⟩ : PageOut)) i).origIndex = i ∧
      ∃ l, create_text_layer (setup_font wBase) 60 wBase.drawFails
          (wBase.ocr i) (wBase.imageSize i) = .ok l ∧
        ((fun _ => (⟨0, "0xProto-Regular", 8, []⟩ : PageOut)) i).cmds =
          l.cmds) :=
  c7_page_preservation wBase ["o", "out.pdf"]
    (fun _ => ⟨0, "0xProto-Regular", 8, []⟩) rfl (by decide) rfl rfl rfl rfl
    (by
      intro i hi
      have hn : wBase.numPages = 1 := rfl
      have h0 : i = 0 := by omega
      subst h0
      decide)

/-- Claim C8: failure to register the custom overlay font is non-fatal:
`_setup_font` falls back to the built-in Helvetica, every page of the
output is then drawn in Helvetica, and the success of `process_pdf` never
depends on the font-availability flags. -/
theorem c8_font_fallback (w : World) (out : List String) (ff rf : Bool) :
    ((w.fontFileExists && !w.registerFails) = false →
      setup_font w = "Helvetica") ∧
    ((processDocument { w with fontFileExists := ff, registerFails := rf }
        out).success = (processDocument w out).success) ∧
    ((w.fontFileExists && !w.registerFails) = false →
      ∀ p ∈ (processDocument w out).pages, p.font = "Helvetica") := by
  have hsf : (w.fontFileExists && !w.registerFails) = false →
      setup_font w = "Helvetica" := by
    intro h
    rw [setup_font, h]
    rfl
  refine ⟨hsf, ?_, ?_⟩
  · rw [processDocument, processDocument, process_pdf_font_flags]
    exact process_pdf_success_font w
      (setup_font { w with fontFileExists := ff, registerFails := rf })
      (setup_font w) 60 out
  · intro h p hp
    have hpf := process_pdf_pages_font w (setup_font w) 60 out p
      (by rwa [processDocument] at hp)
    rwa [hsf h] at hpf

/-- A world whose custom font file is absent. -/
def wNoFont : World := { wBase with fontFileExists := false }

/-- The base world with both font flags overridden (to their defaults). -/
def wFontFlags : World :=
  { wBase with fontFileExists := false, registerFails := false }

/-- Witness for C8: with the font file absent, Helvetica is substituted,
and flipping the font flags does not change the run's success. -/
theorem c8_font_fallback_witness :
    setup_font wNoFont = "Helvetica" ∧
    (processDocument wFontFlags ["o", "out.pdf"]).success =
      (processDocument wBase ["o", "out.pdf"]).success :=
  ⟨(c8_font_fallback wNoFont ["o", "out.pdf"] false false).1 (by decide),
   (c8_font_fallback wBase ["o", "out.pdf"] false false).2.1⟩

end PdfOcr
